import Mathlib

/-!
Shallow embedding of `src/interfaces/lpsolver/variable.py` (the `Variable`
class for symbolic ILP model construction) and proofs about it.

Modelling conventions:
* A Python dict keyed by strings is an association list `List (String × α)`
  with first-occurrence lookup (`dget`) and in-place update (`dset`).
* A Python set of ints is a duplicate-free `List Int`; `setInsert` models
  `set.add` (membership-idempotent), `list(s)[0]` is the head of the list.
* Python in-place mutation with possible exceptions is state passing: a
  mutating method returns `Variable × Option PyErr`, where the returned
  state reflects exactly the mutations performed before any raise.
* `print` diagnostics are modelled structurally as `LogMsg` values; methods
  that print return the list of messages they emitted.
-/

/-- Lookup in an association list modelling a Python dict (`d[k]`,
first occurrence wins). -/
def dget {α : Type} (d : List (String × α)) (k : String) : Option α :=
  match d with
  | [] => none
  | p :: rest => if p.1 = k then some p.2 else dget rest k

/-- Update of an association list modelling a Python dict (`d[k] = x`):
replaces the first binding of `k` in place, or appends a new one. -/
def dset {α : Type} (d : List (String × α)) (k : String) (x : α) :
    List (String × α) :=
  match d with
  | [] => [(k, x)]
  | p :: rest => if p.1 = k then (k, x) :: rest else p :: dset rest k x

/-- Insertion into a duplicate-free list modelling a Python `set.add`:
a no-op when the element is already present. -/
def setInsert (s : List Int) (x : Int) : List Int :=
  if x ∈ s then s else s ++ [x]

/-- Grounding values: the Python code stores arbitrary objects in the
`grounding` dict; ints, strings and (nested) lists cover what the claims
need, and `vlist` also serves as the list that `retrieve_grounding`
returns when it does not find exactly one value. -/
inductive Val : Type where
  | vint : Int → Val
  | vstr : String → Val
  | vlist : List Val → Val

/-- Coefficients passed to the `Constraint` constructor: the templates pass
either numbers (`1`, `-max_flow`, …) or, in `iff`/`implies`, the link name
string itself. -/
inductive Coeff : Type where
  | num : Int → Coeff
  | str : String → Coeff
deriving DecidableEq

/-- Modelled from the spec: the `Constraint` collaborator (its class lives in
`constraint.py`, which is not under `src/`) is, per the spec, an opaque
container accepting a list of named terms, parallel coefficients, a
relational operator and a right-hand side; we model it as a record of
exactly the positional arguments `Variable` passes to its constructor. -/
structure Constraint : Type where
  terms : List String
  coeffs : List Coeff
  op : String
  rhs : Int
deriving DecidableEq

/-- Python exceptions raised by the embedded methods: `KeyError` from dict
subscripts, `IndexError` from `[0]` on an empty list, `AttributeError` from
assigning a slot that is not in `__slots__`, and the bare `Exception`
raised by `add_link`/`add_links` after printing the link-type-conflict
diagnostic (the constructor carries the printed fields: the variable's
type, the link name, the previously bound type, the offending type). -/
inductive PyErr : Type where
  | keyError : String → PyErr
  | indexError : Nat → PyErr
  | attributeError : String → PyErr
  | linkTypeConflict : String → String → String → String → PyErr
deriving DecidableEq

/-- Diagnostics printed (not raised) by the embedded methods. -/
inductive LogMsg : Type where
  | unknownVariableType : String → LogMsg
  | unknownGroundingAttribute : String → String → LogMsg
deriving DecidableEq

/-- The `Variable` class. The fields are exactly the slots of `__slots__`
(lines 16-17 of the source): note that `upper_bound` is NOT among them,
and `Variable` instances have no `__dict__`. -/
structure Variable : Type where
  type : String
  grounding : List (String × Val)
  linked_idxs : List (String × List Int)
  linked_type : List (String × String)
  raw_linked_idxs : List (String × List Int)
  constraints : List Constraint
  coeff : Int
  metadata : Option Val

/-- The `__slots__` list of `Variable` (source lines 16-17). -/
def variable_slots : List String :=
  ["type", "grounding", "linked_idxs", "raw_linked_idxs",
   "linked_type", "constraints", "coeff", "metadata"]

/-- The `__init__` method: type tag, grounding kwargs, everything else
empty/zero. -/
def Variable.init (var_type : String) (kwargs : List (String × Val)) :
    Variable :=
  { type := var_type
    grounding := kwargs
    linked_idxs := []
    linked_type := []
    raw_linked_idxs := []
    constraints := []
    coeff := 0
    metadata := none }

/-- The method `set_idx`: `raw_linked_idxs['own_idx'] = set([idx])` and
`linked_type['own_idx'] = self.type`. -/
def Variable.set_idx (v : Variable) (idx : Int) : Variable :=
  { v with raw_linked_idxs := dset v.raw_linked_idxs "own_idx" [idx]
           linked_type := dset v.linked_type "own_idx" v.type }

/-- The method `idx`: `self.linked_idxs['own_idx'][0]`; raises `KeyError`
when offsets were never applied and `IndexError` on an empty index list. -/
def Variable.idx (v : Variable) : Except PyErr Int :=
  match dget v.linked_idxs "own_idx" with
  | none => .error (.keyError "own_idx")
  | some [] => .error (.indexError 0)
  | some (i :: _) => .ok i

/-- The method `raw_idx`: `list(self.raw_linked_idxs['own_idx'])[0]`. -/
def Variable.raw_idx (v : Variable) : Except PyErr Int :=
  match dget v.raw_linked_idxs "own_idx" with
  | none => .error (.keyError "own_idx")
  | some [] => .error (.indexError 0)
  | some (i :: _) => .ok i

/-- The method `has_link`: `name in self.linked_type`. -/
def Variable.has_link (v : Variable) (name : String) : Bool :=
  (dget v.linked_type name).isSome

/-- Second half of `add_link` (source lines 109-112): insert the target's
raw index into `raw_linked_idxs[name]`, creating the set if needed.
`var.raw_idx()` is evaluated first and may itself raise. -/
def Variable.addLinkRaw (v : Variable) (name : String) (w : Variable) :
    Variable × Option PyErr :=
  match Variable.raw_idx w with
  | .error e => (v, some e)
  | .ok wi =>
    match dget v.raw_linked_idxs name with
    | none =>
      ({ v with raw_linked_idxs := dset v.raw_linked_idxs name [wi] }, none)
    | some s =>
      ({ v with raw_linked_idxs := dset v.raw_linked_idxs name (setInsert s wi) },
       none)

/-- The method `add_link` (source lines 95-112): bind the link name's type
on first use; on a conflicting type, print the diagnostic and raise (before
touching any state); otherwise record the target's raw index. -/
def Variable.add_link (v : Variable) (name : String) (w : Variable) :
    Variable × Option PyErr :=
  match dget v.linked_type name with
  | none =>
    Variable.addLinkRaw { v with linked_type := dset v.linked_type name w.type }
      name w
  | some t =>
    if t = w.type then Variable.addLinkRaw v name w
    else (v, some (.linkTypeConflict v.type name t w.type))

/-- Raw indices of a list of variables, `[var.raw_idx() for var in vars]`:
the first raise aborts the whole comprehension. -/
def rawIdxsOf : List Variable → Except PyErr (List Int)
  | [] => .ok []
  | w :: ws =>
    match Variable.raw_idx w with
    | .error e => .error e
    | .ok i =>
      match rawIdxsOf ws with
      | .error e => .error e
      | .ok is => .ok (i :: is)

/-- Building a Python set from a list of ints (`set([...])`). -/
def listToSet (is : List Int) : List Int :=
  is.foldl setInsert []

/-- `s.update(var.raw_idx() for var in ws)`: elements are added as the
generator is consumed, so a raise midway leaves the earlier insertions in
place. -/
def setUpdateVars (s : List Int) : List Variable → List Int × Option PyErr
  | [] => (s, none)
  | w :: ws =>
    match Variable.raw_idx w with
    | .error e => (s, some e)
    | .ok i => setUpdateVars (setInsert s i) ws

/-- Second half of `add_links` (source lines 129-132). -/
def Variable.addLinksRaw (v : Variable) (name : String) (vars : List Variable) :
    Variable × Option PyErr :=
  match dget v.raw_linked_idxs name with
  | none =>
    match rawIdxsOf vars with
    | .error e => (v, some e)
    | .ok is =>
      ({ v with raw_linked_idxs := dset v.raw_linked_idxs name (listToSet is) },
       none)
  | some s =>
    match setUpdateVars s vars with
    | (s', e) =>
      ({ v with raw_linked_idxs := dset v.raw_linked_idxs name s' }, e)

/-- The method `add_links` (source lines 114-132): like `add_link` but for
an iterable of variables; the type-binding check uses `vars[0].type` only
(IndexError on an empty list). -/
def Variable.add_links (v : Variable) (name : String) (vars : List Variable) :
    Variable × Option PyErr :=
  match vars with
  | [] => (v, some (.indexError 0))
  | w0 :: _ =>
    match dget v.linked_type name with
    | none => Variable.addLinksRaw
        { v with linked_type := dset v.linked_type name w0.type } name vars
    | some t =>
      if t = w0.type then Variable.addLinksRaw v name vars
      else (v, some (.linkTypeConflict v.type name t w0.type))

/-- Loop body of `apply_offsets` (source lines 143-150), iterating over the
entries of `raw_linked_idxs`. For each link name: look up its bound type
(a missing binding would be a Python `KeyError`); if that type has no
offset, print the diagnostic and continue with the next link; otherwise
set `linked_idxs[name]` to the raw indices shifted by the offset. -/
def applyOffsetsGo (offsets : List (String × Int)) :
    List (String × List Int) → Variable → List LogMsg →
    Variable × List LogMsg × Option PyErr
  | [], v, msgs => (v, msgs, none)
  | (name, _) :: rest, v, msgs =>
    match dget v.linked_type name with
    | none => (v, msgs, some (.keyError name))
    | some var_type =>
      match dget offsets var_type with
      | none =>
        applyOffsetsGo offsets rest v
          (msgs ++ [LogMsg.unknownVariableType var_type])
      | some off =>
        match dget v.raw_linked_idxs name with
        | none => (v, msgs, some (.keyError name))
        | some raws =>
          applyOffsetsGo offsets rest
            { v with linked_idxs := dset v.linked_idxs name (raws.map (fun i => i + off)) }
            msgs

/-- The method `apply_offsets` (source lines 139-150). Returns the final
state, the printed diagnostics, and the raised exception if any. -/
def Variable.apply_offsets (v : Variable) (offsets : List (String × Int)) :
    Variable × List LogMsg × Option PyErr :=
  applyOffsetsGo offsets v.raw_linked_idxs v []

/-- The method `get_unique_id`:
`self.type + str(list(self.raw_linked_idxs['own_idx'])[0])`. -/
def Variable.get_unique_id (v : Variable) : Except PyErr String :=
  match dget v.raw_linked_idxs "own_idx" with
  | none => .error (.keyError "own_idx")
  | some [] => .error (.indexError 0)
  | some (i :: _) => .ok (v.type ++ toString i)

/-- Loop of `retrieve_grounding` (source lines 205-211): collect the values
of the requested names in order, printing a diagnostic and skipping any
name that is not in `grounding`. -/
def retrieveValues (var_type : String) (g : List (String × Val)) :
    List String → List Val × List LogMsg
  | [] => ([], [])
  | name :: rest =>
    match dget g name with
    | none =>
      ((retrieveValues var_type g rest).1,
       LogMsg.unknownGroundingAttribute name var_type
         :: (retrieveValues var_type g rest).2)
    | some x =>
      (x :: (retrieveValues var_type g rest).1,
       (retrieveValues var_type g rest).2)

/-- The method `retrieve_grounding` (source lines 201-216): returns the
bare value when exactly one was found, and the list of found values
otherwise (so in particular the empty list when nothing was found). -/
def Variable.retrieve_grounding (v : Variable) (args : List String) :
    Val × List LogMsg :=
  ((match (retrieveValues v.type v.grounding args).1 with
    | [x] => x
    | vs => Val.vlist vs),
   (retrieveValues v.type v.grounding args).2)

/-- The template `iff` (source lines 240-250): note the link name string is
passed as the first coefficient. -/
def Variable.iff (v : Variable) (link : String) : Variable :=
  { v with constraints := v.constraints ++
      [{ terms := ["own_idx", link]
         coeffs := [Coeff.str link, Coeff.num (-1)]
         op := "="
         rhs := 0 }] }

/-- The template `iff_exactly` (source lines 252-262). -/
def Variable.iff_exactly (v : Variable) (N : Int) (link : String) : Variable :=
  { v with constraints := v.constraints ++
      [{ terms := ["own_idx", link]
         coeffs := [Coeff.num N, Coeff.num (-1)]
         op := "="
         rhs := 0 }] }

/-- The template `implies` (source lines 264-273): same terms, coefficients
and right-hand side as `iff`, with operator `<=`. -/
def Variable.implies (v : Variable) (link : String) : Variable :=
  { v with constraints := v.constraints ++
      [{ terms := ["own_idx", link]
         coeffs := [Coeff.str link, Coeff.num (-1)]
         op := "<="
         rhs := 0 }] }

/-- The template `implies_at_least` (source lines 275-284). -/
def Variable.implies_at_least (v : Variable) (N : Int) (link : String) :
    Variable :=
  { v with constraints := v.constraints ++
      [{ terms := ["own_idx", link]
         coeffs := [Coeff.num N, Coeff.num (-1)]
         op := "<="
         rhs := 0 }] }

/-- The template `has_flow_over` (source lines 286-299): the constraint is
appended, and then `self.upper_bound = max_flow` is executed — but
`upper_bound` is not in `__slots__` and `Variable` has no `__dict__`, so
that assignment raises `AttributeError` (after the append has taken
effect). -/
def Variable.has_flow_over (v : Variable) (link : String) (max_flow : Int) :
    Variable × Option PyErr :=
  let v' := { v with constraints := v.constraints ++
      [{ terms := ["own_idx", link]
         coeffs := [Coeff.num 1, Coeff.num (-max_flow)]
         op := "<="
         rhs := 0 }] }
  (v', if "upper_bound" ∈ variable_slots then none
       else some (.attributeError "upper_bound"))

/-- The template `consumes_flow_between` (source lines 301-310). -/
def Variable.consumes_flow_between (v : Variable)
    (incoming_link outgoing_link : String) : Variable :=
  { v with constraints := v.constraints ++
      [{ terms := [incoming_link, outgoing_link]
         coeffs := [Coeff.num 1, Coeff.num (-1)]
         op := "="
         rhs := 1 }] }

/-- The template `requires_flow_between` (source lines 312-324). -/
def Variable.requires_flow_between (v : Variable)
    (incoming_link outgoing_link : String) : Variable :=
  { v with constraints := v.constraints ++
      [{ terms := [incoming_link, outgoing_link, "own_idx"]
         coeffs := [Coeff.num 1, Coeff.num (-1), Coeff.num (-1)]
         op := "="
         rhs := 0 }] }

/-! ### Lemmas about the dict and set models -/

theorem dget_dset_self {α : Type} (d : List (String × α)) (k : String) (x : α) :
    dget (dset d k x) k = some x := by
  induction d with
  | nil => simp [dget, dset]
  | cons p rest ih =>
    by_cases h : p.1 = k
    · simp [dset, h, dget]
    · simp [dset, h, dget, ih]

theorem dget_dset_ne {α : Type} (d : List (String × α)) (k k' : String) (x : α)
    (h : k ≠ k') : dget (dset d k x) k' = dget d k' := by
  induction d with
  | nil => simp [dget, dset, h]
  | cons p rest ih =>
    by_cases hp : p.1 = k
    · have h2 : p.1 ≠ k' := by rw [hp]; exact h
      simp [dset, hp, dget, h, h2]
    · simp [dset, hp, dget, ih]

theorem exists_dget_of_mem {α : Type} {d : List (String × α)} {p : String × α}
    (h : p ∈ d) : ∃ x, dget d p.1 = some x := by
  induction d with
  | nil => cases h
  | cons q rest ih =>
    by_cases hq : q.1 = p.1
    · exact ⟨q.2, by simp [dget, hq]⟩
    · rcases List.mem_cons.mp h with he | hm
      · exact absurd (he ▸ rfl) hq
      · rcases ih hm with ⟨x, hx⟩
        exact ⟨x, by simp [dget, hq, hx]⟩

theorem mem_keys_of_dget {α : Type} {d : List (String × α)} {k : String} {x : α}
    (h : dget d k = some x) : k ∈ d.map Prod.fst := by
  induction d with
  | nil => simp [dget] at h
  | cons q rest ih =>
    by_cases hq : q.1 = k
    · simp [hq]
    · simp [dget, hq] at h
      simp [ih h]

theorem mem_setInsert_self (s : List Int) (x : Int) : x ∈ setInsert s x := by
  by_cases h : x ∈ s <;> simp [setInsert, h]

theorem setInsert_eq_of_mem {s : List Int} {x : Int} (h : x ∈ s) :
    setInsert s x = s := by
  simp [setInsert, h]

/-! ### Lemmas about the `apply_offsets` loop -/

/-- The loop of `apply_offsets` mutates only `linked_idxs`: every other
field of the variable is unchanged on every path. -/
theorem applyOffsetsGo_frame (offsets : List (String × Int))
    (es : List (String × List Int)) :
    ∀ (v : Variable) (ms : List LogMsg),
      (applyOffsetsGo offsets es v ms).1.type = v.type ∧
      (applyOffsetsGo offsets es v ms).1.grounding = v.grounding ∧
      (applyOffsetsGo offsets es v ms).1.linked_type = v.linked_type ∧
      (applyOffsetsGo offsets es v ms).1.raw_linked_idxs = v.raw_linked_idxs ∧
      (applyOffsetsGo offsets es v ms).1.constraints = v.constraints ∧
      (applyOffsetsGo offsets es v ms).1.coeff = v.coeff ∧
      (applyOffsetsGo offsets es v ms).1.metadata = v.metadata := by
  induction es with
  | nil => intro v ms; simp [applyOffsetsGo]
  | cons p rest ih =>
    intro v ms
    obtain ⟨nm, xs⟩ := p
    cases hlt : dget v.linked_type nm with
    | none => simp [applyOffsetsGo, hlt]
    | some t =>
      cases hoff : dget offsets t with
      | none =>
        simp only [applyOffsetsGo, hlt, hoff]
        exact ih v _
      | some o =>
        cases hr : dget v.raw_linked_idxs nm with
        | none => simp [applyOffsetsGo, hlt, hoff, hr]
        | some r =>
          simp only [applyOffsetsGo, hlt, hoff, hr]
          exact ih _ ms

/-- The loop of `apply_offsets` raises no exception as long as every
iterated link name has a bound type and a raw index set (the invariant
maintained by `set_idx`/`add_link`/`add_links`); a missing offset only
prints. -/
theorem applyOffsetsGo_noError (offsets : List (String × Int))
    (es : List (String × List Int)) :
    ∀ (v : Variable) (ms : List LogMsg),
      (∀ p ∈ es, ∃ t, dget v.linked_type p.1 = some t) →
      (∀ p ∈ es, ∃ r, dget v.raw_linked_idxs p.1 = some r) →
      (applyOffsetsGo offsets es v ms).2.2 = none := by
  induction es with
  | nil => intro v ms _ _; rfl
  | cons p rest ih =>
    intro v ms hlt hraw
    obtain ⟨nm, xs⟩ := p
    obtain ⟨t, ht⟩ := hlt (nm, xs) (List.mem_cons_self _ _)
    obtain ⟨r, hr⟩ := hraw (nm, xs) (List.mem_cons_self _ _)
    cases hoff : dget offsets t with
    | none =>
      simp only [applyOffsetsGo, ht, hoff]
      exact ih v _
        (fun q hq => hlt q (List.mem_cons_of_mem _ hq))
        (fun q hq => hraw q (List.mem_cons_of_mem _ hq))
    | some o =>
      simp only [applyOffsetsGo, ht, hoff, hr]
      exact ih _ ms
        (fun q hq => hlt q (List.mem_cons_of_mem _ hq))
        (fun q hq => hraw q (List.mem_cons_of_mem _ hq))

/-- The loop of `apply_offsets` only appends to the list of printed
messages. -/
theorem applyOffsetsGo_msgs (offsets : List (String × Int))
    (es : List (String × List Int)) :
    ∀ (v : Variable) (ms : List LogMsg),
      ∃ ex, (applyOffsetsGo offsets es v ms).2.1 = ms ++ ex := by
  induction es with
  | nil => intro v ms; exact ⟨[], by simp [applyOffsetsGo]⟩
  | cons p rest ih =>
    intro v ms
    obtain ⟨nm, xs⟩ := p
    cases hlt : dget v.linked_type nm with
    | none => exact ⟨[], by simp [applyOffsetsGo, hlt]⟩
    | some t =>
      cases hoff : dget offsets t with
      | none =>
        rcases ih v (ms ++ [LogMsg.unknownVariableType t]) with ⟨ex, hex⟩
        refine ⟨LogMsg.unknownVariableType t :: ex, ?_⟩
        simp only [applyOffsetsGo, hlt, hoff]
        simp [hex]
      | some o =>
        cases hr : dget v.raw_linked_idxs nm with
        | none => exact ⟨[], by simp [applyOffsetsGo, hlt, hoff, hr]⟩
        | some r =>
          rcases ih { v with linked_idxs := dset v.linked_idxs nm (r.map (fun i => i + o)) } ms
            with ⟨ex, hex⟩
          refine ⟨ex, ?_⟩
          simp only [applyOffsetsGo, hlt, hoff, hr]
          exact hex

/-- Behaviour of the `apply_offsets` loop on a link name whose bound type
has no offset: no exception, the diagnostic is printed when the name is
iterated, and the name's global indices are left exactly as they were. -/
theorem applyOffsetsGo_missing (offsets : List (String × Int))
    (name t : String) (es : List (String × List Int)) :
    ∀ (v : Variable) (ms : List LogMsg),
      (∀ p ∈ es, ∃ t0, dget v.linked_type p.1 = some t0) →
      (∀ p ∈ es, ∃ r0, dget v.raw_linked_idxs p.1 = some r0) →
      dget v.linked_type name = some t →
      dget offsets t = none →
      dget (applyOffsetsGo offsets es v ms).1.linked_idxs name
          = dget v.linked_idxs name ∧
      (name ∈ es.map Prod.fst →
        LogMsg.unknownVariableType t ∈ (applyOffsetsGo offsets es v ms).2.1) := by
  induction es with
  | nil =>
    intro v ms _ _ _ _
    exact ⟨rfl, by intro h; cases h⟩
  | cons p rest ih =>
    intro v ms hlt hraw hname hoff
    obtain ⟨nm, xs⟩ := p
    obtain ⟨t0, ht0⟩ := hlt (nm, xs) (List.mem_cons_self _ _)
    obtain ⟨r0, hr0⟩ := hraw (nm, xs) (List.mem_cons_self _ _)
    by_cases hnm : nm = name
    · subst hnm
      have htt : t0 = t := by
        rw [ht0] at hname
        exact (Option.some.injEq _ _ ▸ hname).symm ▸ rfl
      subst htt
      simp only [applyOffsetsGo, ht0, hoff]
      constructor
      · exact (ih v _ (fun q hq => hlt q (List.mem_cons_of_mem _ hq))
          (fun q hq => hraw q (List.mem_cons_of_mem _ hq)) hname hoff).1
      · intro _
        rcases applyOffsetsGo_msgs offsets rest v
            (ms ++ [LogMsg.unknownVariableType t0]) with ⟨ex, hex⟩
        rw [hex]
        simp
    · cases hoff0 : dget offsets t0 with
      | none =>
        simp only [applyOffsetsGo, ht0, hoff0]
        have hrec := ih v (ms ++ [LogMsg.unknownVariableType t0])
          (fun q hq => hlt q (List.mem_cons_of_mem _ hq))
          (fun q hq => hraw q (List.mem_cons_of_mem _ hq)) hname hoff
        refine ⟨hrec.1, ?_⟩
        intro hmem
        have hmem2 : name = nm ∨ name ∈ rest.map Prod.fst := by simpa using hmem
        rcases hmem2 with he | hm
        · exact absurd he.symm hnm
        · exact hrec.2 hm
      | some o0 =>
        simp only [applyOffsetsGo, ht0, hoff0, hr0]
        have hrec := ih
          { v with linked_idxs := dset v.linked_idxs nm (r0.map (fun i => i + o0)) } ms
          (fun q hq => hlt q (List.mem_cons_of_mem _ hq))
          (fun q hq => hraw q (List.mem_cons_of_mem _ hq)) hname hoff
        constructor
        · rw [hrec.1]
          exact dget_dset_ne _ nm name _ hnm
        · intro hmem
          have hmem2 : name = nm ∨ name ∈ rest.map Prod.fst := by simpa using hmem
          rcases hmem2 with he | hm
          · exact absurd he.symm hnm
          · exact hrec.2 hm

/-- Behaviour of the `apply_offsets` loop on a link name whose bound type
has an offset: once the name is iterated (or its target value is already in
place), its global indices are the raw indices shifted by the offset. -/
theorem applyOffsetsGo_present (offsets : List (String × Int))
    (name t : String) (o : Int) (r : List Int) (es : List (String × List Int)) :
    ∀ (v : Variable) (ms : List LogMsg),
      (∀ p ∈ es, ∃ t0, dget v.linked_type p.1 = some t0) →
      (∀ p ∈ es, ∃ r0, dget v.raw_linked_idxs p.1 = some r0) →
      dget v.linked_type name = some t →
      dget offsets t = some o →
      dget v.raw_linked_idxs name = some r →
      (name ∈ es.map Prod.fst ∨
        dget v.linked_idxs name = some (r.map (fun i => i + o))) →
      dget (applyOffsetsGo offsets es v ms).1.linked_idxs name
        = some (r.map (fun i => i + o)) := by
  induction es with
  | nil =>
    intro v ms _ _ _ _ _ hcur
    rcases hcur with h | h
    · cases h
    · exact h
  | cons p rest ih =>
    intro v ms hlt hraw hname hoff hr hcur
    obtain ⟨nm, xs⟩ := p
    obtain ⟨t0, ht0⟩ := hlt (nm, xs) (List.mem_cons_self _ _)
    obtain ⟨r0, hr0⟩ := hraw (nm, xs) (List.mem_cons_self _ _)
    by_cases hnm : nm = name
    · subst hnm
      have htt : t0 = t := by rw [ht0] at hname; exact (Option.some.inj hname)
      subst htt
      have hrr : r0 = r := by rw [hr0] at hr; exact (Option.some.inj hr)
      subst hrr
      simp only [applyOffsetsGo, ht0, hoff, hr0]
      refine ih _ ms
        (fun q hq => hlt q (List.mem_cons_of_mem _ hq))
        (fun q hq => hraw q (List.mem_cons_of_mem _ hq)) hname hoff hr ?_
      right
      exact dget_dset_self _ nm _
    · cases hoff0 : dget offsets t0 with
      | none =>
        simp only [applyOffsetsGo, ht0, hoff0]
        refine ih v _
          (fun q hq => hlt q (List.mem_cons_of_mem _ hq))
          (fun q hq => hraw q (List.mem_cons_of_mem _ hq)) hname hoff hr ?_
        rcases hcur with hmem | hval
        · have hmem2 : name = nm ∨ name ∈ rest.map Prod.fst := by simpa using hmem
          rcases hmem2 with he | hm
          · exact absurd he.symm hnm
          · exact Or.inl hm
        · exact Or.inr hval
      | some o0 =>
        simp only [applyOffsetsGo, ht0, hoff0, hr0]
        refine ih _ ms
          (fun q hq => hlt q (List.mem_cons_of_mem _ hq))
          (fun q hq => hraw q (List.mem_cons_of_mem _ hq)) hname hoff hr ?_
        rcases hcur with hmem | hval
        · have hmem2 : name = nm ∨ name ∈ rest.map Prod.fst := by simpa using hmem
          rcases hmem2 with he | hm
          · exact absurd he.symm hnm
          · exact Or.inl hm
        · right
          rw [dget_dset_ne _ nm name _ hnm]
          exact hval

/-! ### Concrete example variables used by the closed theorems -/

/-- A node variable with raw index 0. -/
def nodeAt0 : Variable := (Variable.init "node" []).set_idx 0

/-- A node variable with raw index 2. -/
def nodeAt2 : Variable := (Variable.init "node" []).set_idx 2

/-- A node variable with raw index 4. -/
def nodeAt4 : Variable := (Variable.init "node" []).set_idx 4

/-- An edge variable with raw index 3. -/
def edgeAt3 : Variable := (Variable.init "edge" []).set_idx 3

/-- An edge variable with raw index 7. -/
def edgeAt7 : Variable := (Variable.init "edge" []).set_idx 7

/-- A node variable linked (as link `a`) to an edge variable, then
assigned raw index 2; its link registry lists `a` before `own_idx`. -/
def nodeLinkedToEdge : Variable :=
  (((Variable.init "node" []).add_link "a" edgeAt7).1).set_idx 2

/-- A node variable whose grounding stores an empty list under key `a`. -/
def groundedEmptyList : Variable := Variable.init "node" [("a", Val.vlist [])]

/-- A node variable with no grounding at all. -/
def ungroundedNode : Variable := Variable.init "node" []

/-! ### The claims -/

/-- C1: for every Variable whose raw index has been assigned via `set_idx`
(so `raw_linked_idxs['own_idx']` is a singleton and `own_idx` is bound to
the variable's own type) and every offset map containing an entry `k` for
the variable's type and an entry for the bound type of every registered
link, `apply_offsets` raises nothing and afterwards `idx()` returns
`raw_idx() + k`. -/
theorem c1_idx_after_apply_offsets (v : Variable) (offsets : List (String × Int))
    (i k : Int)
    (h1 : dget v.raw_linked_idxs "own_idx" = some [i])
    (h2 : dget v.linked_type "own_idx" = some v.type)
    (h3 : dget offsets v.type = some k)
    (h4 : ∀ p ∈ v.raw_linked_idxs,
      ∃ t o, dget v.linked_type p.1 = some t ∧ dget offsets t = some o) :
    v.raw_idx = Except.ok i ∧
    (v.apply_offsets offsets).2.2 = none ∧
    (v.apply_offsets offsets).1.idx = Except.ok (i + k) := by
  have hlt : ∀ p ∈ v.raw_linked_idxs, ∃ t, dget v.linked_type p.1 = some t := by
    intro p hp
    obtain ⟨t, o, ht, -⟩ := h4 p hp
    exact ⟨t, ht⟩
  have hraw : ∀ p ∈ v.raw_linked_idxs, ∃ r, dget v.raw_linked_idxs p.1 = some r :=
    fun p hp => exists_dget_of_mem hp
  refine ⟨by simp [Variable.raw_idx, h1], ?_, ?_⟩
  · exact applyOffsetsGo_noError offsets v.raw_linked_idxs v [] hlt hraw
  · have hfin := applyOffsetsGo_present offsets "own_idx" v.type k [i]
      v.raw_linked_idxs v [] hlt hraw h2 h3 h1 (Or.inl (mem_keys_of_dget h1))
    simp only [List.map] at hfin
    simp [Variable.idx, Variable.apply_offsets, hfin]

/-- Witness for C1 at a concrete input: a node variable with raw index 2
and offset 10 for type `node` gets global index 12. -/
theorem c1_witness :
    nodeAt2.raw_idx = Except.ok 2 ∧
    (nodeAt2.apply_offsets [("node", 10)]).2.2 = none ∧
    (nodeAt2.apply_offsets [("node", 10)]).1.idx = Except.ok (2 + 10) :=
  c1_idx_after_apply_offsets nodeAt2 [("node", 10)] 2 10 rfl rfl rfl (by
    intro p hp
    have hp2 : p = ("own_idx", ([2] : List Int)) := by
      simpa [nodeAt2, Variable.init, Variable.set_idx, dset] using hp
    subst hp2
    exact ⟨"node", 10, rfl, rfl⟩)

/-- C2 as stated is false: `apply_offsets` on a variable with a registered
link (`a`, bound to type `edge`) whose type is absent from the offset map
raises nothing, only prints the diagnostic, and keeps going — the later
link `own_idx` still gets its global index. -/
theorem c2_counterexample :
    dget nodeLinkedToEdge.linked_type "a" = some "edge" ∧
    dget [("node", (5 : Int))] "edge" = none ∧
    (nodeLinkedToEdge.apply_offsets [("node", 5)]).2.2 = none ∧
    (nodeLinkedToEdge.apply_offsets [("node", 5)]).2.1
      = [LogMsg.unknownVariableType "edge"] ∧
    dget (nodeLinkedToEdge.apply_offsets [("node", 5)]).1.linked_idxs "own_idx"
      = some [7] ∧
    dget (nodeLinkedToEdge.apply_offsets [("node", 5)]).1.linked_idxs "a"
      = none :=
  ⟨rfl, rfl, rfl, rfl, rfl, rfl⟩

/-- C2 amended: for every Variable with a registered link whose bound type
is absent from the offset map (and all links type-bound, as the setters
guarantee), `apply_offsets` raises no error; it prints an
unknown-variable-type diagnostic naming the type, leaves that link's
global indices exactly as they were, and continues with the remaining
links. -/
theorem c2_amended (v : Variable) (offsets : List (String × Int)) (name t : String)
    (hall : ∀ p ∈ v.raw_linked_idxs, ∃ t0, dget v.linked_type p.1 = some t0)
    (hname : dget v.linked_type name = some t)
    (hoff : dget offsets t = none)
    (hmem : name ∈ v.raw_linked_idxs.map Prod.fst) :
    (v.apply_offsets offsets).2.2 = none ∧
    LogMsg.unknownVariableType t ∈ (v.apply_offsets offsets).2.1 ∧
    dget (v.apply_offsets offsets).1.linked_idxs name
      = dget v.linked_idxs name := by
  have hraw : ∀ p ∈ v.raw_linked_idxs, ∃ r0, dget v.raw_linked_idxs p.1 = some r0 :=
    fun p hp => exists_dget_of_mem hp
  have hm := applyOffsetsGo_missing offsets name t v.raw_linked_idxs v []
    hall hraw hname hoff
  exact ⟨applyOffsetsGo_noError offsets v.raw_linked_idxs v [] hall hraw,
    hm.2 hmem, hm.1⟩

/-- Witness for the amended C2 at a concrete input. -/
theorem c2_witness :
    (nodeLinkedToEdge.apply_offsets [("node", 5)]).2.2 = none ∧
    LogMsg.unknownVariableType "edge"
      ∈ (nodeLinkedToEdge.apply_offsets [("node", 5)]).2.1 ∧
    dget (nodeLinkedToEdge.apply_offsets [("node", 5)]).1.linked_idxs "a"
      = dget nodeLinkedToEdge.linked_idxs "a" :=
  c2_amended nodeLinkedToEdge [("node", 5)] "a" "edge"
    (by
      intro p hp
      have hp2 : p = ("a", ([7] : List Int)) ∨ p = ("own_idx", ([2] : List Int)) := by
        simpa [nodeLinkedToEdge, edgeAt7, Variable.init, Variable.set_idx,
          Variable.add_link, Variable.addLinkRaw, Variable.raw_idx, dget, dset]
          using hp
      rcases hp2 with hp2 | hp2 <;> subst hp2
      · exact ⟨"edge", rfl⟩
      · exact ⟨"node", rfl⟩)
    rfl rfl (by decide)

/-- C7: for every Variable whose raw index has been assigned,
`get_unique_id` returns the variable's type concatenated with its raw own
index, and it is unchanged by `apply_offsets` (which touches neither
`type` nor `raw_linked_idxs`). -/
theorem c7_unique_id_stable (v : Variable) (offsets : List (String × Int)) (i : Int)
    (h1 : dget v.raw_linked_idxs "own_idx" = some [i]) :
    v.get_unique_id = Except.ok (v.type ++ toString i) ∧
    (v.apply_offsets offsets).1.get_unique_id = v.get_unique_id := by
  have hfr := applyOffsetsGo_frame offsets v.raw_linked_idxs v []
  constructor
  · simp [Variable.get_unique_id, h1]
  · show (applyOffsetsGo offsets v.raw_linked_idxs v []).1.get_unique_id = _
    simp [Variable.get_unique_id, hfr.2.2.2.1, hfr.1, h1]

/-- Witness for C7 at a concrete input: identity `node2`, stable under
offset application. -/
theorem c7_witness :
    nodeAt2.get_unique_id = Except.ok "node2" ∧
    (nodeAt2.apply_offsets [("node", 10)]).1.get_unique_id
      = nodeAt2.get_unique_id :=
  c7_unique_id_stable nodeAt2 [("node", 10)] 2 rfl

/-- C3: for every Variable on which a link name is already bound to type
`t`, `add_link` with a target of a different type — and `add_links` whose
first target has a different type — raises the link-type-conflict error
carrying the variable's type, the link name, the previously bound type and
the offending type, and leaves the variable (in particular the binding of
the name) unchanged. -/
theorem c3_link_type_conflict (v w : Variable) (name t : String)
    (ws : List Variable)
    (h : dget v.linked_type name = some t)
    (hw : w.type ≠ t)
    (hws : ws.head? = some w) :
    v.add_link name w = (v, some (PyErr.linkTypeConflict v.type name t w.type)) ∧
    v.add_links name ws
      = (v, some (PyErr.linkTypeConflict v.type name t w.type)) := by
  constructor
  · simp only [Variable.add_link, h]
    rw [if_neg (fun he => hw he.symm)]
  · cases ws with
    | nil => cases hws
    | cons w0 rest =>
      have hw0 : w0 = w := by simpa using hws
      subst hw0
      simp only [Variable.add_links, h]
      rw [if_neg (fun he => hw he.symm)]

/-- Witness for C3 at a concrete input: the link `e` of a node variable is
bound to `edge`; relinking it to a node variable raises the conflict. -/
theorem c3_witness :
    (nodeAt0.add_link "e" edgeAt3).1.add_link "e" nodeAt4
      = ((nodeAt0.add_link "e" edgeAt3).1,
         some (PyErr.linkTypeConflict "node" "e" "edge" "node")) ∧
    (nodeAt0.add_link "e" edgeAt3).1.add_links "e" [nodeAt4]
      = ((nodeAt0.add_link "e" edgeAt3).1,
         some (PyErr.linkTypeConflict "node" "e" "edge" "node")) :=
  c3_link_type_conflict (nodeAt0.add_link "e" edgeAt3).1 nodeAt4 "e" "edge"
    [nodeAt4] rfl (by decide) rfl

/-- C4 is a code bug: `has_flow_over` does append exactly the claimed
constraint, but then executes `self.upper_bound = max_flow`, and since
`upper_bound` is not in `__slots__` (and a `Variable` has no `__dict__`)
that assignment raises `AttributeError` instead of setting the bound.
Evaluation at the failing input `has_flow_over('ind', 5)` on a node
variable. -/
theorem c4_has_flow_over_attribute_error :
    nodeAt0.has_flow_over "ind" 5
      = ({ nodeAt0 with constraints := nodeAt0.constraints ++
            [{ terms := ["own_idx", "ind"],
               coeffs := [Coeff.num 1, Coeff.num (-5)],
               op := "<=", rhs := 0 }] },
         some (PyErr.attributeError "upper_bound")) := by
  have hns : ("upper_bound" ∈ variable_slots) = False := by
    simp [variable_slots]
  simp [Variable.has_flow_over, hns]

/-- Successful `addLinkRaw` yields the target's raw index, leaves
`linked_type` untouched, and produces a link set containing that index. -/
theorem addLinkRaw_success (v w : Variable) (name : String) (v1 : Variable)
    (h : Variable.addLinkRaw v name w = (v1, none)) :
    ∃ wi s, Variable.raw_idx w = Except.ok wi ∧
      v1.linked_type = v.linked_type ∧
      dget v1.raw_linked_idxs name = some s ∧ wi ∈ s := by
  cases hwi : Variable.raw_idx w with
  | error e => simp [Variable.addLinkRaw, hwi] at h
  | ok wi =>
    cases hrw : dget v.raw_linked_idxs name with
    | none =>
      simp only [Variable.addLinkRaw, hwi, hrw] at h
      have hv := congrArg Prod.fst h
      simp only at hv
      subst hv
      exact ⟨wi, [wi], rfl, rfl, dget_dset_self _ name _, by simp⟩
    | some s =>
      simp only [Variable.addLinkRaw, hwi, hrw] at h
      have hv := congrArg Prod.fst h
      simp only at hv
      subst hv
      exact ⟨wi, setInsert s wi, rfl, rfl, dget_dset_self _ name _,
        mem_setInsert_self s wi⟩

/-- After a successful `add_link`, the link name is bound to the target's
type and the link set contains the target's raw index. -/
theorem add_link_success (v w : Variable) (name : String) (v1 : Variable)
    (h : v.add_link name w = (v1, none)) :
    ∃ wi s, Variable.raw_idx w = Except.ok wi ∧
      dget v1.linked_type name = some w.type ∧
      dget v1.raw_linked_idxs name = some s ∧ wi ∈ s := by
  cases hlt : dget v.linked_type name with
  | none =>
    simp only [Variable.add_link, hlt] at h
    obtain ⟨wi, s, hwi, hlt1, hs, hmem⟩ := addLinkRaw_success _ w name v1 h
    refine ⟨wi, s, hwi, ?_, hs, hmem⟩
    rw [hlt1]
    exact dget_dset_self _ name _
  | some t =>
    simp only [Variable.add_link, hlt] at h
    by_cases hte : t = w.type
    · rw [if_pos hte] at h
      obtain ⟨wi, s, hwi, hlt1, hs, hmem⟩ := addLinkRaw_success v w name v1 h
      refine ⟨wi, s, hwi, ?_, hs, hmem⟩
      rw [hlt1, hlt, hte]
    · rw [if_neg hte] at h
      have := congrArg Prod.snd h
      simp at this
/-- A repeated `add_link` whose target raw index is already in the link set
rewrites that set unchanged. -/
theorem add_link_again (v1 w : Variable) (name : String) (wi : Int)
    (s : List Int)
    (hlt : dget v1.linked_type name = some w.type)
    (hwi : Variable.raw_idx w = Except.ok wi)
    (hs : dget v1.raw_linked_idxs name = some s)
    (hmem : wi ∈ s) :
    v1.add_link name w
      = ({ v1 with raw_linked_idxs := dset v1.raw_linked_idxs name s }, none) := by
  simp only [Variable.add_link, hlt, if_pos rfl, Variable.addLinkRaw, hwi, hs,
    setInsert_eq_of_mem hmem]
  simp

/-- C5: adding the same link target twice is idempotent — the second
`add_link` call succeeds and leaves `raw_linked_idxs[name]` (in particular
its size) unchanged. -/
theorem c5_add_link_idempotent (v w : Variable) (name : String) (v1 : Variable)
    (h : v.add_link name w = (v1, none)) :
    (v1.add_link name w).2 = none ∧
    dget (v1.add_link name w).1.raw_linked_idxs name
      = dget v1.raw_linked_idxs name := by
  obtain ⟨wi, s, hwi, hlt, hs, hmem⟩ := add_link_success v w name v1 h
  rw [add_link_again v1 w name wi s hlt hwi hs hmem]
  refine ⟨rfl, ?_⟩
  show dget (dset v1.raw_linked_idxs name s) name = _
  rw [dget_dset_self, hs]

/-- Witness for C5 at a concrete input: linking the same edge twice under
`e` leaves the link set at `{3}`. -/
theorem c5_witness :
    ((nodeAt0.add_link "e" edgeAt3).1.add_link "e" edgeAt3).2 = none ∧
    dget ((nodeAt0.add_link "e" edgeAt3).1.add_link "e" edgeAt3).1.raw_linked_idxs "e"
      = dget (nodeAt0.add_link "e" edgeAt3).1.raw_linked_idxs "e" :=
  c5_add_link_idempotent nodeAt0 edgeAt3 "e" (nodeAt0.add_link "e" edgeAt3).1 rfl

/-- C6: `implies(link)` and `iff(link)` each append one constraint with
the same terms `['own_idx', link]`, the same coefficients `[link, -1]`
(the link name string as first coefficient) and RHS 0, differing only in
the relational operator: `<=` for `implies`, `=` for `iff`. -/
theorem c6_implies_iff_differ_only_in_op (v : Variable) (link : String) :
    ∃ c1 c2 : Constraint,
      (Variable.implies v link).constraints = v.constraints ++ [c1] ∧
      (Variable.iff v link).constraints = v.constraints ++ [c2] ∧
      c1.terms = ["own_idx", link] ∧ c2.terms = c1.terms ∧
      c1.coeffs = [Coeff.str link, Coeff.num (-1)] ∧ c2.coeffs = c1.coeffs ∧
      c1.rhs = 0 ∧ c2.rhs = c1.rhs ∧
      c1.op = "<=" ∧ c2.op = "=" :=
  ⟨{ terms := ["own_idx", link], coeffs := [Coeff.str link, Coeff.num (-1)],
     op := "<=", rhs := 0 },
   { terms := ["own_idx", link], coeffs := [Coeff.str link, Coeff.num (-1)],
     op := "=", rhs := 0 },
   rfl, rfl, rfl, rfl, rfl, rfl, rfl, rfl, rfl, rfl⟩

/-- C8: `consumes_flow_between(incoming, outgoing)` appends exactly one
constraint with terms `[incoming, outgoing]`, coefficients `[1, -1]`,
operator `=` and RHS 1. -/
theorem c8_consumes_flow_between_constraint (v : Variable)
    (incoming_link outgoing_link : String) :
    (v.consumes_flow_between incoming_link outgoing_link).constraints =
      v.constraints ++
        [{ terms := [incoming_link, outgoing_link],
           coeffs := [Coeff.num 1, Coeff.num (-1)],
           op := "=", rhs := 1 }] :=
  rfl

/-- C9 as stated is false: a lookup of a key that was never stored returns
the empty list, which is indistinguishable from the result of looking up a
key legitimately bound to an empty list — the missing key is only printed,
not surfaced distinctly in the returned value. -/
theorem c9_counterexample :
    dget ungroundedNode.grounding "b" = none ∧
    dget groundedEmptyList.grounding "a" = some (Val.vlist []) ∧
    (ungroundedNode.retrieve_grounding ["b"]).1
      = (groundedEmptyList.retrieve_grounding ["a"]).1 :=
  ⟨rfl, rfl, rfl⟩

/-- C9 amended: requesting a single never-stored key prints an
unknown-grounding-attribute diagnostic naming the key and the variable's
type and returns the empty list of found values; the returned value alone
does not distinguish the missing key from a stored value. -/
theorem c9_amended (v : Variable) (name : String)
    (h : dget v.grounding name = none) :
    v.retrieve_grounding [name]
      = (Val.vlist [], [LogMsg.unknownGroundingAttribute name v.type]) := by
  simp [Variable.retrieve_grounding, retrieveValues, h]

/-- Witness for the amended C9 at a concrete input. -/
theorem c9_witness :
    ungroundedNode.retrieve_grounding ["b"]
      = (Val.vlist [], [LogMsg.unknownGroundingAttribute "b" "node"]) :=
  c9_amended ungroundedNode "b" rfl

/-- The value component of the `retrieve_grounding` loop is exactly the
requested names' stored values in request order, with absent names
omitted. -/
theorem retrieveValues_fst_eq_filterMap (var_type : String)
    (g : List (String × Val)) :
    ∀ args : List String,
      (retrieveValues var_type g args).1
        = args.filterMap (fun nm => dget g nm) := by
  intro args
  induction args with
  | nil => rfl
  | cons nm rest ih =>
    cases h : dget g nm with
    | none => simp [retrieveValues, h, ih]
    | some x => simp [retrieveValues, h, ih]

/-- C10: `retrieve_grounding` omits every requested name absent from the
grounding (the found values are the `filterMap` of the lookups), and its
return shape is non-uniform: a bare value when exactly one value was
found, the list of found values otherwise — so a single missing key
yields the empty list. -/
theorem c10_retrieve_grounding_shape (v : Variable) (args : List String) :
    (v.retrieve_grounding args).1 =
      match args.filterMap (fun nm => dget v.grounding nm) with
      | [x] => x
      | vs => Val.vlist vs := by
  have hv := retrieveValues_fst_eq_filterMap v.type v.grounding args
  simp only [Variable.retrieve_grounding]
  rw [hv]
